import Mathlib

/-!
Verification of the phi-engine computational kernel against its design
specification.

The Python sources are shallowly embedded:

* `core.py` transforms (`D`, `x_from_D`, `Theta`, `Energy`) work on real
  numbers; a function that raises `ValueError` is embedded as a function
  into `Except String _`, the `error` case standing for the raised
  exception.
* `analyzer.py` (`SumRuleValidator`, `RepresentationDecomposer`) is
  embedded over exact rationals and integers so that every definition is
  executable.
* the adapters' `analyze` entry points (`calibration.py`,
  `sensor_fusion.py`, `photosynthesis.py`) are embedded with their
  top-level error-marker guard; the mode-specific non-error analysis,
  which only matters past that guard, is a parameter of the embedding,
  so the theorems below hold for the concrete branch as an instance.
* `constants_db.py` queries are embedded against an explicit heap so
  that the copy made by Python's `dict(c)` is visible as an allocation
  of a fresh address.
-/

/-! ## core.py - Layer 1/2: constants and deterministic transforms -/

/-- Golden ratio, `PHI = (1 + sqrt(5)) / 2` from `core.py`. -/
noncomputable def PHI : ℝ := (1 + Real.sqrt 5) / 2

/-- Embedding of `core.D`: raises `ValueError("D(x) requires x > 0")` when
`x <= 0`, otherwise returns `-log(x) / log(PHI)`. -/
noncomputable def D (x : ℝ) : Except String ℝ :=
  if x ≤ 0 then Except.error "D(x) requires x > 0"
  else Except.ok (-Real.log x / Real.log PHI)

/-- Embedding of `core.x_from_D`: `x = 1 / PHI ** d` (total). -/
noncomputable def x_from_D (d : ℝ) : ℝ := 1 / PHI ^ d

/-- Embedding of `core.Theta`: `Theta(x) = 2 * pi * x`. -/
noncomputable def Theta (x : ℝ) : ℝ := 2 * Real.pi * x

/-- Embedding of `core.Energy`: `(PHI ** D(x)) * Theta(x)`; the call to `D`
propagates the `ValueError` for non-positive `x`. -/
noncomputable def Energy (x : ℝ) : Except String ℝ :=
  (D x).map fun d => PHI ^ d * Theta x

lemma sqrt_five_ge_two : (2 : ℝ) ≤ Real.sqrt 5 := by
  have h4 : Real.sqrt 4 = 2 := by
    rw [show (4 : ℝ) = 2 ^ 2 by norm_num]
    exact Real.sqrt_sq (by norm_num)
  calc (2 : ℝ) = Real.sqrt 4 := h4.symm
    _ ≤ Real.sqrt 5 := Real.sqrt_le_sqrt (by norm_num)

lemma one_lt_phi : 1 < PHI := by
  have h := sqrt_five_ge_two
  unfold PHI
  linarith

lemma phi_pos : 0 < PHI := lt_trans one_pos one_lt_phi

lemma log_phi_ne_zero : Real.log PHI ≠ 0 :=
  ne_of_gt (Real.log_pos one_lt_phi)

/-- Key algebraic fact behind the kernel: for positive `x`,
`PHI ^ (-log x / log PHI) = x⁻¹`. -/
lemma phi_rpow_neg_log {x : ℝ} (hx : 0 < x) :
    PHI ^ (-Real.log x / Real.log PHI) = x⁻¹ := by
  rw [Real.rpow_def_of_pos phi_pos]
  have hφ : Real.log PHI ≠ 0 := log_phi_ne_zero
  have h : Real.log PHI * (-Real.log x / Real.log PHI) = -Real.log x := by
    field_simp
    ring
  rw [h, Real.exp_neg, Real.exp_log hx]

lemma D_pos_eq {x : ℝ} (hx : 0 < x) :
    D x = Except.ok (-Real.log x / Real.log PHI) := by
  unfold D
  rw [if_neg (not_le.mpr hx)]

/-- C2: for every real `x > 0`, `Energy(x)` (that is, `PHI` raised to `D(x)`
and multiplied by `Theta(x)`) is returned without error and equals `2 * pi`
to within `1e-10`. -/
theorem energy_conservation_spec (x : ℝ) (hx : 0 < x) :
    ∃ e, Energy x = Except.ok e ∧ |e - 2 * Real.pi| ≤ 1 / 10 ^ 10 := by
  refine ⟨2 * Real.pi, ?_, by simp⟩
  unfold Energy
  rw [D_pos_eq hx]
  have h1 : PHI ^ (-Real.log x / Real.log PHI) = x⁻¹ := phi_rpow_neg_log hx
  have h2 : x⁻¹ * Theta x = 2 * Real.pi := by
    unfold Theta
    rw [mul_comm (2 * Real.pi) x, ← mul_assoc, inv_mul_cancel₀ (ne_of_gt hx),
      one_mul]
  simp [Except.map, h1, h2]

/-- Closed instance of `energy_conservation_spec` at `x = 1`. -/
theorem energy_conservation_spec_witness :
    0 < (1 : ℝ) ∧
      ∃ e, Energy 1 = Except.ok e ∧ |e - 2 * Real.pi| ≤ 1 / 10 ^ 10 :=
  ⟨one_pos, energy_conservation_spec 1 one_pos⟩

/-- C3: for every real `x > 0`, `D` succeeds and `x_from_D(D(x))` recovers
`x` to within `1e-10`. -/
theorem dimension_roundtrip_spec (x : ℝ) (hx : 0 < x) :
    ∃ d, D x = Except.ok d ∧ |x_from_D d - x| ≤ 1 / 10 ^ 10 := by
  refine ⟨-Real.log x / Real.log PHI, D_pos_eq hx, ?_⟩
  have h : x_from_D (-Real.log x / Real.log PHI) = x := by
    unfold x_from_D
    rw [phi_rpow_neg_log hx, one_div, inv_inv]
  rw [h]
  simp

/-- Closed instance of `dimension_roundtrip_spec` at `x = 1`. -/
theorem dimension_roundtrip_spec_witness :
    0 < (1 : ℝ) ∧
      ∃ d, D 1 = Except.ok d ∧ |x_from_D d - 1| ≤ 1 / 10 ^ 10 :=
  ⟨one_pos, dimension_roundtrip_spec 1 one_pos⟩

/-- C4: for every real `x > 0`, both `D(x)` and `D(1/x)` succeed and their
sum is `0` to within `1e-10` (closure under reciprocal). -/
theorem d_space_closure_spec (x : ℝ) (hx : 0 < x) :
    ∃ d₁ d₂, D x = Except.ok d₁ ∧ D (1 / x) = Except.ok d₂ ∧
      |d₁ + d₂| ≤ 1 / 10 ^ 10 := by
  refine ⟨-Real.log x / Real.log PHI, -Real.log (1 / x) / Real.log PHI,
    D_pos_eq hx, D_pos_eq (by positivity), ?_⟩
  have h : -Real.log x / Real.log PHI + -Real.log (1 / x) / Real.log PHI = 0 := by
    rw [one_div, Real.log_inv]
    field_simp
  rw [h]
  simp

/-- Closed instance of `d_space_closure_spec` at `x = 1`. -/
theorem d_space_closure_spec_witness :
    0 < (1 : ℝ) ∧
      ∃ d₁ d₂, D 1 = Except.ok d₁ ∧ D (1 / 1) = Except.ok d₂ ∧
        |d₁ + d₂| ≤ 1 / 10 ^ 10 :=
  ⟨one_pos, d_space_closure_spec 1 one_pos⟩

/-- C5: `x_from_D` is total on the reals (it is a plain function, raising
nothing) and returns `PHI ^ (-d)` for every real `d`. -/
theorem x_from_D_total_spec (d : ℝ) : x_from_D d = PHI ^ (-d) := by
  unfold x_from_D
  rw [Real.rpow_neg (le_of_lt phi_pos), one_div]

/-- C8: `D` returns the `ValueError` exactly when `x <= 0`, and for `x > 0`
returns `-log(x) / log(PHI)`; the embedding into `Except` is synchronous and
nothing downstream intercepts the error case. -/
theorem D_domain_spec (x : ℝ) :
    (D x = Except.error "D(x) requires x > 0" ↔ x ≤ 0) ∧
      (0 < x → D x = Except.ok (-Real.log x / Real.log PHI)) := by
  constructor
  · constructor
    · intro h
      by_contra hpos
      rw [D_pos_eq (not_le.mp hpos)] at h
      exact Except.noConfusion h
    · intro h
      unfold D
      rw [if_pos h]
  · intro h
    exact D_pos_eq h

/-- Closed instance of `D_domain_spec` at `x = -1` (error case) and `x = 1`
(success case). -/
theorem D_domain_spec_witness :
    D (-1 : ℝ) = Except.error "D(x) requires x > 0" ∧
      (0 < (1 : ℝ) ∧ D (1 : ℝ) = Except.ok (-Real.log 1 / Real.log PHI)) :=
  ⟨(D_domain_spec (-1)).1.mpr (neg_nonpos.mpr zero_le_one),
    one_pos, (D_domain_spec 1).2 one_pos⟩

/-! ## analyzer.py - SumRuleValidator

Embedded over exact rationals; Python's `round(x, n)` is embedded as
round-half-to-even on the scaled value, which is what `round` does on the
idealised (exact) arithmetic. -/

/-- Nearest integer with ties going to the even neighbour (Python's `round`
on an exact value). -/
def pyRoundInt (q : ℚ) : ℤ :=
  if q - ⌊q⌋ = 1 / 2 then (if 2 ∣ ⌊q⌋ then ⌊q⌋ else ⌊q⌋ + 1) else round q

/-- Python's `round(q, n)`: round to `n` decimal digits, ties to even. -/
def pyRound (n : ℕ) (q : ℚ) : ℚ := (pyRoundInt (q * 10 ^ n) : ℚ) / 10 ^ n

/-- Return record of `SumRuleValidator.validate` (the Python dict keys). -/
structure ValidateResult where
  valid : Bool
  actual_sum : ℚ
  expected_sum : ℚ
  deviation_ppm : ℚ
  tolerance_ppm : ℚ
  residual : ℚ
deriving DecidableEq

namespace SumRuleValidator

/-- Embedding of `SumRuleValidator.validate` from `analyzer.py` (the Python
default for `tolerance_ppm` is `100`, passed explicitly here). -/
def validate (c_values : List ℚ) (expected_sum : ℚ)
    (tolerance_ppm : ℚ) : ValidateResult :=
  let actual := c_values.sum
  let deviation_ppm :=
    if expected_sum = 0 then |actual| * 1000000
    else |actual - expected_sum| / |expected_sum| * 1000000
  { valid := decide (deviation_ppm ≤ tolerance_ppm)
    actual_sum := actual
    expected_sum := expected_sum
    deviation_ppm := pyRound 3 deviation_ppm
    tolerance_ppm := tolerance_ppm
    residual := pyRound 12 (actual - expected_sum) }

end SumRuleValidator

/-- C1: `validate` never fails (it is a total function), returns
`actual_sum` equal to the sum of the coefficients (`0` for `[]`),
`deviation_ppm` equal to `|actual - expected| / max(|expected|, eps) * 1e6`
(`|actual| * 1e6` when the expected sum is exactly zero) rounded to 3
decimals, `valid` true iff that deviation is within the tolerance, and
`residual = actual - expected` rounded to 12 decimals.  The guard value
`eps` only has to not exceed `|expected|` when `expected ≠ 0`, which is how
the source divides by `|expected|` directly. -/
theorem sum_rule_validate_spec (cs : List ℚ) (es tol eps : ℚ)
    (heps : es = 0 ∨ eps ≤ |es|) :
    (SumRuleValidator.validate cs es tol).actual_sum = cs.sum ∧
    (SumRuleValidator.validate cs es tol).deviation_ppm =
      pyRound 3 (if es = 0 then |cs.sum| * 1000000
        else |cs.sum - es| / max |es| eps * 1000000) ∧
    ((SumRuleValidator.validate cs es tol).valid = true ↔
      (if es = 0 then |cs.sum| * 1000000
        else |cs.sum - es| / max |es| eps * 1000000) ≤ tol) ∧
    (SumRuleValidator.validate cs es tol).residual =
      pyRound 12 (cs.sum - es) := by
  have hmax :
      (if es = 0 then |cs.sum| * 1000000
        else |cs.sum - es| / max |es| eps * 1000000)
      = (if es = 0 then |cs.sum| * 1000000
        else |cs.sum - es| / |es| * 1000000) := by
    rcases heps with h | h
    · simp [h]
    · by_cases hz : es = 0
      · simp [hz]
      · rw [if_neg hz, if_neg hz, max_eq_left h]
  rw [hmax]
  refine ⟨rfl, rfl, ?_, rfl⟩
  simp only [SumRuleValidator.validate]
  exact decide_eq_true_iff

/-- Closed instance of `sum_rule_validate_spec` on the spec's example
`validate([-1, 1, 2, 0.5], 2.5)`: actual sum `2.5`, deviation `0 ppm`,
valid. -/
theorem sum_rule_validate_spec_witness :
    ((5 : ℚ) / 2 = 0 ∨ (0 : ℚ) ≤ |(5 : ℚ) / 2|) ∧
    (SumRuleValidator.validate [-1, 1, 2, 1/2] (5/2) 100).actual_sum = 5/2 ∧
    (SumRuleValidator.validate [-1, 1, 2, 1/2] (5/2) 100).deviation_ppm = 0 ∧
    (SumRuleValidator.validate [-1, 1, 2, 1/2] (5/2) 100).valid = true := by
  have h := sum_rule_validate_spec [-1, 1, 2, 1/2] (5/2) 100 0
    (Or.inr (abs_nonneg _))
  have hsum : ([-1, 1, 2, 1/2] : List ℚ).sum = 5/2 := by
    norm_num [List.sum_cons, List.sum_nil]
  have hdev :
      (if (5 : ℚ)/2 = 0 then |([-1, 1, 2, 1/2] : List ℚ).sum| * 1000000
        else |([-1, 1, 2, 1/2] : List ℚ).sum - 5/2| / max |(5 : ℚ)/2| 0
          * 1000000) = 0 := by
    rw [if_neg (by norm_num), hsum]
    norm_num
  refine ⟨Or.inr (abs_nonneg _), h.1.trans hsum, ?_, ?_⟩
  · rw [h.2.1, hdev]
    simp [pyRound, pyRoundInt]
  · exact h.2.2.1.mpr (by rw [hdev]; norm_num)

/-! ## analyzer.py - RepresentationDecomposer

Integer algorithms, embedded executably over `ℤ`.  The `while True`
collection loop and the inner division loop of `fibonacci_factors` are
embedded with explicit bounds/fuel that dominate the source's loop counts,
so the embedded functions compute the same values. -/

/-- Embedding of `core.fib`: Fibonacci number `F(n)`, 0-indexed. -/
def fib : ℕ → ℕ
  | 0 => 0
  | 1 => 1
  | n + 2 => fib n + fib (n + 1)

/-- Return record of `fibonacci_factors`.  The `exact` component is `none`
when the Python dict carries no `"exact"` key (the `n <= 0` branch builds
only `factors`, `product` and `residual`). -/
structure FibFactors where
  factors : List ℤ
  product : ℤ
  residual : ℤ
  exact : Option Bool
deriving DecidableEq

namespace RepresentationDecomposer

/-- Collection loop of `fibonacci_factors`: unique Fibonacci numbers `> 1`
up to `n`, in descending order.  `fib` is strictly increasing from index 3
on, so the `seen` set in the source never rejects anything, and every index
`k` with `fib k <= n` satisfies `k < n.toNat + 3` (since `fib k >= k - 1`),
so ranging `k` over `3 .. n.toNat + 2` covers the whole `while True` loop. -/
def collectFibs (n : ℤ) : List ℤ :=
  (((List.range n.toNat).map (fun i => (fib (i + 3) : ℤ))).filter
    (fun f => f ≤ n)).reverse

/-- Inner `while remaining > 1 and remaining % f == 0` loop of
`fibonacci_factors`; each pass divides `remaining` by `f >= 2`, so
`remaining.toNat` passes of fuel dominate the source's loop count. -/
def divideOut (f : ℤ) : ℕ → ℤ → List ℤ × ℤ
  | 0, r => ([], r)
  | fuel + 1, r =>
    if 1 < r ∧ r % f = 0 then
      let p := divideOut f fuel (r / f)
      (f :: p.1, p.2)
    else ([], r)

/-- Greedy pass of `fibonacci_factors` over the descending factor list. -/
def greedy (fibs : List ℤ) (r : ℤ) : List ℤ × ℤ :=
  fibs.foldl (fun acc f =>
    let p := divideOut f acc.2.toNat acc.2
    (acc.1 ++ p.1, p.2)) ([], r)

/-- Embedding of `RepresentationDecomposer.fibonacci_factors`. -/
def fibonacci_factors (n : ℤ) : FibFactors :=
  if n ≤ 0 then { factors := [], product := 0, residual := n, exact := none }
  else
    let p := greedy (collectFibs n) n
    let factors := List.insertionSort (· ≤ ·) p.1
    let product := factors.foldl (· * ·) 1
    { factors := factors
      product := product
      residual := n - product
      exact := some (decide (product = n)) }

/-- The `KNOWN_REPS` table: adjoint dimension, group name, Fibonacci form. -/
def KNOWN_REPS : List (ℤ × String × String) :=
  [(1, "U(1)", "F(1) = 1"),
   (3, "SU(2)", "F(4) = 3"),
   (8, "SU(3)", "F(6) = 8"),
   (12, "SM gauge", "L(12) = 322 states"),
   (24, "SU(5) adj", "F(5)^2 - 1 = 24"),
   (45, "SO(10) adj", "F(4)^2 * F(5) = 45"),
   (78, "E6 adj", "45 + 16 + 16_bar + 1"),
   (133, "E7 adj", "133 = 7 * 19"),
   (248, "E8 adj", "F(6) * 31 = 248")]

/-- Return record of `gut_decomposition`. -/
structure GutInfo where
  dimension : ℤ
  group : String
  fibonacci_form : Option String
  fibonacci_factors : FibFactors
deriving DecidableEq

/-- Embedding of `RepresentationDecomposer.gut_decomposition`. -/
def gut_decomposition (parent_dim : ℤ) : GutInfo :=
  match KNOWN_REPS.find? (fun e => e.1 == parent_dim) with
  | some e =>
    { dimension := parent_dim
      group := e.2.1
      fibonacci_form := some e.2.2
      fibonacci_factors := fibonacci_factors parent_dim }
  | none =>
    { dimension := parent_dim
      group := "unknown"
      fibonacci_form := none
      fibonacci_factors := fibonacci_factors parent_dim }

/-- One record of `hierarchy_rank`: `{"denominator": den, "score": s,
**info}`. -/
structure Ranked where
  denominator : ℤ
  score : ℤ
  info : GutInfo
deriving DecidableEq

/-- Loop body of `hierarchy_rank`.  Reading `info["fibonacci_factors"]
["exact"]` raises `KeyError` when the key is absent (the `n <= 0`
factorisation dict); that exception is the `none` case. -/
def rankOne (den : ℤ) : Option Ranked :=
  let info := gut_decomposition den
  if info.group ≠ "unknown" then
    some { denominator := den, score := 3, info := info }
  else
    match info.fibonacci_factors.exact with
    | none => none
    | some e =>
      some { denominator := den, score := if e then 2 else 1, info := info }

/-- Sequencing of the `hierarchy_rank` loop: the first raised `KeyError`
aborts the whole call. -/
def rankAll : List ℤ → Option (List Ranked)
  | [] => some []
  | d :: ds =>
    match rankOne d, rankAll ds with
    | some r, some rs => some (r :: rs)
    | _, _ => none

/-- Sort order of `hierarchy_rank`: Python's stable sort on the key
`(-score, denominator)`, i.e. descending score, ties by ascending
denominator. -/
def rankLE (a b : Ranked) : Prop :=
  b.score < a.score ∨ (a.score = b.score ∧ a.denominator ≤ b.denominator)

instance : DecidableRel rankLE := fun a b => by
  unfold rankLE
  infer_instance

instance : IsTotal Ranked rankLE :=
  ⟨fun a b => by unfold rankLE; omega⟩

instance : IsTrans Ranked rankLE :=
  ⟨fun a b c hab hbc => by unfold rankLE at hab hbc ⊢; omega⟩

/-- Embedding of `RepresentationDecomposer.hierarchy_rank`; `insertionSort`
is a stable sort, like Python's. -/
def hierarchy_rank (denominators : List ℤ) : Option (List Ranked) :=
  (rankAll denominators).map (List.insertionSort rankLE)

/-- Image of one positive denominator under the `hierarchy_rank` loop body
(used to state what the ranked records contain). -/
def rankEntry (den : ℤ) : Ranked :=
  let info := gut_decomposition den
  { denominator := den
    score :=
      if info.group ≠ "unknown" then 3
      else if info.fibonacci_factors.exact = some true then 2
      else 1
    info := info }

end RepresentationDecomposer

open RepresentationDecomposer

lemma gut_fib_factors (d : ℤ) :
    (gut_decomposition d).fibonacci_factors = fibonacci_factors d := by
  unfold gut_decomposition
  split <;> rfl

lemma fibonacci_factors_pos_eq {n : ℤ} (h : 0 < n) :
    fibonacci_factors n =
      { factors := List.insertionSort (· ≤ ·) (greedy (collectFibs n) n).1
        product := (List.insertionSort (· ≤ ·)
          (greedy (collectFibs n) n).1).foldl (· * ·) 1
        residual := n - (List.insertionSort (· ≤ ·)
          (greedy (collectFibs n) n).1).foldl (· * ·) 1
        exact := some (decide ((List.insertionSort (· ≤ ·)
          (greedy (collectFibs n) n).1).foldl (· * ·) 1 = n)) } := by
  unfold fibonacci_factors
  rw [if_neg (not_le.mpr h)]

/-- C6 as frozen is false: the `n <= 0` branch of `fibonacci_factors` sets
`product = 0`, which is not the product of the (empty) factor list, and its
dict carries no `exact` key at all.  Shown here at `n = 0`. -/
theorem fibonacci_factors_claim_counterexample :
    (fibonacci_factors 0).product ≠ (fibonacci_factors 0).factors.prod ∧
      (fibonacci_factors 0).exact = none := by
  decide

/-- C6 amended: for `n >= 1`, `fibonacci_factors n` returns factors in
ascending order whose product is the `product` field, `residual = n -
product`, and `exact = (product == n)`; for `n <= 0` it returns the record
`{factors: [], product: 0, residual: n}` with no `exact` key (so there the
`product` field is `0`, not the empty product `1`). -/
theorem fibonacci_factors_spec (n : ℤ) :
    (0 < n →
      List.Sorted (· ≤ ·) (fibonacci_factors n).factors ∧
      (fibonacci_factors n).product = (fibonacci_factors n).factors.prod ∧
      (fibonacci_factors n).residual = n - (fibonacci_factors n).product ∧
      (fibonacci_factors n).exact =
        some (decide ((fibonacci_factors n).product = n))) ∧
    (n ≤ 0 →
      fibonacci_factors n =
        { factors := [], product := 0, residual := n, exact := none }) := by
  constructor
  · intro h
    rw [fibonacci_factors_pos_eq h]
    exact ⟨List.sorted_insertionSort _ _, List.prod_eq_foldl.symm, rfl, rfl⟩
  · intro h
    unfold fibonacci_factors
    rw [if_pos h]

/-- Closed instance of `fibonacci_factors_spec` at `n = 45`. -/
theorem fibonacci_factors_spec_witness :
    (0 : ℤ) < 45 ∧
      (List.Sorted (· ≤ ·) (fibonacci_factors 45).factors ∧
       (fibonacci_factors 45).product = (fibonacci_factors 45).factors.prod ∧
       (fibonacci_factors 45).residual = 45 - (fibonacci_factors 45).product ∧
       (fibonacci_factors 45).exact =
         some (decide ((fibonacci_factors 45).product = 45))) :=
  ⟨by decide, (fibonacci_factors_spec 45).1 (by decide)⟩

lemma rankOne_pos {den : ℤ} (h : 0 < den) :
    rankOne den = some (rankEntry den) := by
  have hex : (gut_decomposition den).fibonacci_factors.exact =
      some (decide ((fibonacci_factors den).product = den)) := by
    rw [gut_fib_factors, fibonacci_factors_pos_eq h]
  unfold rankOne rankEntry
  by_cases hg : (gut_decomposition den).group ≠ "unknown"
  · simp only [if_pos hg]
  · simp only [if_neg hg]
    rw [hex]
    by_cases hp : (fibonacci_factors den).product = den
    · simp [hp]
    · simp [hp]

lemma rankAll_pos : ∀ (dens : List ℤ), (∀ d ∈ dens, 0 < d) →
    rankAll dens = some (dens.map rankEntry)
  | [], _ => rfl
  | d :: ds, h => by
    have h1 := rankOne_pos (h d (List.mem_cons_self d ds))
    have h2 := rankAll_pos ds (fun x hx => h x (List.mem_cons_of_mem d hx))
    unfold rankAll
    rw [h1, h2]
    rfl

/-- C7 as frozen is false: `hierarchy_rank` does not complete for every
input integer.  On a non-positive denominator the factorisation dict has no
`exact` key and the score computation raises `KeyError` (the `none` case of
the embedding), shown here on the input `[0]`. -/
theorem hierarchy_rank_claim_counterexample :
    hierarchy_rank [0] = none := by
  decide

/-- C7 amended: for every list of positive integers, `hierarchy_rank`
completes and returns one record per input (a permutation of the per-input
records), each scored 3 when its GUT decomposition names a known group, 2
when the group is unknown but the Fibonacci factorisation is exact, and 1
otherwise, sorted by descending score with ties broken by ascending
denominator; on any non-positive input integer the call instead raises
`KeyError`. -/
theorem hierarchy_rank_spec (dens : List ℤ) (h : ∀ d ∈ dens, 0 < d) :
    ∃ out, hierarchy_rank dens = some out ∧
      out.Perm (dens.map rankEntry) ∧
      List.Sorted rankLE out ∧
      ∀ r ∈ out, r.info = gut_decomposition r.denominator ∧
        r.score = (if (gut_decomposition r.denominator).group ≠ "unknown"
          then 3
          else if (fibonacci_factors r.denominator).exact = some true then 2
          else 1) := by
  refine ⟨List.insertionSort rankLE (dens.map rankEntry), ?_, ?_, ?_, ?_⟩
  · unfold hierarchy_rank
    rw [rankAll_pos dens h]
    rfl
  · exact List.perm_insertionSort rankLE _
  · exact List.sorted_insertionSort rankLE _
  · intro r hr
    have hr' : r ∈ dens.map rankEntry :=
      (List.perm_insertionSort rankLE _).subset hr
    rcases List.mem_map.mp hr' with ⟨d, _, rfl⟩
    refine ⟨rfl, ?_⟩
    simp only [rankEntry]
    rw [gut_fib_factors]

/-- Closed instance of `hierarchy_rank_spec` on the input `[45, 24, 7]`. -/
theorem hierarchy_rank_spec_witness :
    (∀ d ∈ ([45, 24, 7] : List ℤ), 0 < d) ∧
      (∃ out, hierarchy_rank [45, 24, 7] = some out ∧
        out.Perm (([45, 24, 7] : List ℤ).map rankEntry) ∧
        List.Sorted rankLE out ∧
        ∀ r ∈ out, r.info = gut_decomposition r.denominator ∧
          r.score = (if (gut_decomposition r.denominator).group ≠ "unknown"
            then 3
            else if (fibonacci_factors r.denominator).exact = some true then 2
            else 1)) :=
  ⟨by decide, hierarchy_rank_spec [45, 24, 7] (by decide)⟩

/-! ## adapters - the `analyze` error-marker guard

Each adapter's `analyze` starts with `if "error" in d_data:` and returns the
same failure record built from the ingested dict's error message.  The
ingested dicts are embedded as structures whose `error` field is the
optional error marker; the mode-specific non-error analysis (statistics and
float-formatted recommendation strings) is passed as a function parameter,
so the theorem quantifies over it and covers the source's concrete branch
as an instance. -/

/-- Embedding of `adapters.base.AnalysisResult` (the dataclass), with the
data and hierarchy entry types as parameters. -/
structure AnalysisResult (δ η : Type) where
  success : Bool
  data : δ
  d_space_values : List ℝ
  consistency_score : ℝ
  hierarchy : List η
  recommendations : List String
  metadata : List (String × String)

/-- Keys of the dict built by `CalibrationAdapter.ingest` that `analyze`
reads; `error` is present exactly on the failure marker. -/
structure CalIngested where
  error : Option String
  d_readings : List ℝ
  d_ref : ℝ
  d_residuals : List ℝ
  raw_readings : List ℝ

/-- One entry of the `sensor_data` list built by
`SensorFusionAdapter.ingest`. -/
structure SensorData where
  name : String
  weight : ℝ
  d_values : List ℝ
  d_mean : ℝ
  d_std : ℝ
  n_valid : ℕ
  n_total : ℕ

/-- Keys of the dict built by `SensorFusionAdapter.ingest`. -/
structure FusionIngested where
  error : Option String
  sensor_data : List SensorData
  d_ref : Option ℝ
  n_sensors : ℕ

/-- Toplevel keys of the dict built by `PhotosynthesisAdapter.ingest` that
`analyze` itself reads; the mode-specific keys are consumed only inside the
per-mode branches, which are abstracted below. -/
structure PhotoIngested where
  error : Option String
  mode : String

namespace CalibrationAdapter

/-- Embedding of `CalibrationAdapter.analyze`: the leading error-marker
guard is translated literally; the non-error branch is the parameter
`ok`. -/
def analyze {η : Type} (ok : CalIngested → AnalysisResult CalIngested η)
    (d_data : CalIngested) : AnalysisResult CalIngested η :=
  match d_data.error with
  | some msg =>
    { success := false
      data := d_data
      d_space_values := []
      consistency_score := 0
      hierarchy := []
      recommendations := [msg]
      metadata := [] }
  | none => ok d_data

end CalibrationAdapter

namespace SensorFusionAdapter

/-- Embedding of `SensorFusionAdapter.analyze`: the leading error-marker
guard is translated literally; the non-error fusion branch is the parameter
`ok`. -/
def analyze {η : Type} (ok : FusionIngested → AnalysisResult FusionIngested η)
    (d_data : FusionIngested) : AnalysisResult FusionIngested η :=
  match d_data.error with
  | some msg =>
    { success := false
      data := d_data
      d_space_values := []
      consistency_score := 0
      hierarchy := []
      recommendations := [msg]
      metadata := [] }
  | none => ok d_data

end SensorFusionAdapter

namespace PhotosynthesisAdapter

/-- Embedding of `PhotosynthesisAdapter.analyze`: the leading error-marker
guard and the mode dispatch are translated literally; the three per-mode
branches are the parameters. -/
def analyze {η : Type}
    (okCascade okMof okFull : PhotoIngested → AnalysisResult PhotoIngested η)
    (d_data : PhotoIngested) : AnalysisResult PhotoIngested η :=
  match d_data.error with
  | some msg =>
    { success := false
      data := d_data
      d_space_values := []
      consistency_score := 0
      hierarchy := []
      recommendations := [msg]
      metadata := [] }
  | none =>
    if d_data.mode = "cascade" then okCascade d_data
    else if d_data.mode = "mof_filter" then okMof d_data
    else if d_data.mode = "full_system" then okFull d_data
    else
      { success := false
        data := d_data
        d_space_values := []
        consistency_score := 0
        hierarchy := []
        recommendations := ["Unknown mode '" ++ d_data.mode ++ "'"]
        metadata := [] }

end PhotosynthesisAdapter

/-- C9: for each adapter variant (calibration, sensor fusion,
photosynthesis) and every ingested record carrying an error marker,
`analyze` returns (without raising) a result with `success = false`,
consistency score `0`, and the error message as the sole recommendation —
whatever the non-error branches would compute. -/
theorem adapter_error_marker_spec {η₁ η₂ η₃ : Type}
    (ok₁ : CalIngested → AnalysisResult CalIngested η₁)
    (ok₂ : FusionIngested → AnalysisResult FusionIngested η₂)
    (okC okM okF : PhotoIngested → AnalysisResult PhotoIngested η₃)
    (dc : CalIngested) (df : FusionIngested) (dp : PhotoIngested)
    (msgc msgf msgp : String)
    (hc : dc.error = some msgc) (hf : df.error = some msgf)
    (hp : dp.error = some msgp) :
    ((CalibrationAdapter.analyze ok₁ dc).success = false ∧
      (CalibrationAdapter.analyze ok₁ dc).consistency_score = 0 ∧
      (CalibrationAdapter.analyze ok₁ dc).recommendations = [msgc]) ∧
    ((SensorFusionAdapter.analyze ok₂ df).success = false ∧
      (SensorFusionAdapter.analyze ok₂ df).consistency_score = 0 ∧
      (SensorFusionAdapter.analyze ok₂ df).recommendations = [msgf]) ∧
    ((PhotosynthesisAdapter.analyze okC okM okF dp).success = false ∧
      (PhotosynthesisAdapter.analyze okC okM okF dp).consistency_score = 0 ∧
      (PhotosynthesisAdapter.analyze okC okM okF dp).recommendations
        = [msgp]) := by
  unfold CalibrationAdapter.analyze SensorFusionAdapter.analyze
    PhotosynthesisAdapter.analyze
  rw [hc, hf, hp]
  exact ⟨⟨rfl, rfl, rfl⟩, ⟨rfl, rfl, rfl⟩, ⟨rfl, rfl, rfl⟩⟩

/-- Constant non-error branch used by the closed instance below. -/
def calOk : CalIngested → AnalysisResult CalIngested Unit :=
  fun d => ⟨true, d, [], 1, [], [], []⟩

/-- Constant non-error branch used by the closed instance below. -/
def fusionOk : FusionIngested → AnalysisResult FusionIngested Unit :=
  fun d => ⟨true, d, [], 1, [], [], []⟩

/-- Constant non-error branch used by the closed instance below. -/
def photoOk : PhotoIngested → AnalysisResult PhotoIngested Unit :=
  fun d => ⟨true, d, [], 1, [], [], []⟩

/-- Ingested calibration record carrying the adapter's actual error
marker. -/
def calErrIngested : CalIngested := ⟨some "No readings provided", [], 0, [], []⟩

/-- Ingested fusion record carrying the adapter's actual error marker. -/
def fusionErrIngested : FusionIngested := ⟨some "No sensors provided", [], none, 0⟩

/-- Ingested photosynthesis record carrying an ingest error marker. -/
def photoErrIngested : PhotoIngested := ⟨some "Unknown mode 'x'", "x"⟩

/-- Closed instance of `adapter_error_marker_spec` on the adapters' actual
ingest error messages, with constant non-error branches. -/
theorem adapter_error_marker_spec_witness :
    calErrIngested.error = some "No readings provided" ∧
    fusionErrIngested.error = some "No sensors provided" ∧
    photoErrIngested.error = some "Unknown mode 'x'" ∧
    (((CalibrationAdapter.analyze calOk calErrIngested).success = false ∧
      (CalibrationAdapter.analyze calOk calErrIngested).consistency_score
        = 0 ∧
      (CalibrationAdapter.analyze calOk calErrIngested).recommendations
        = ["No readings provided"]) ∧
    ((SensorFusionAdapter.analyze fusionOk fusionErrIngested).success
        = false ∧
      (SensorFusionAdapter.analyze fusionOk
        fusionErrIngested).consistency_score = 0 ∧
      (SensorFusionAdapter.analyze fusionOk
        fusionErrIngested).recommendations = ["No sensors provided"]) ∧
    ((PhotosynthesisAdapter.analyze photoOk photoOk photoOk
        photoErrIngested).success = false ∧
      (PhotosynthesisAdapter.analyze photoOk photoOk photoOk
        photoErrIngested).consistency_score = 0 ∧
      (PhotosynthesisAdapter.analyze photoOk photoOk photoOk
        photoErrIngested).recommendations = ["Unknown mode 'x'"])) :=
  ⟨rfl, rfl, rfl,
    adapter_error_marker_spec calOk fusionOk photoOk photoOk photoOk
      calErrIngested fusionErrIngested photoErrIngested
      "No readings provided" "No sensors provided" "Unknown mode 'x'"
      rfl rfl rfl⟩

/-! ## constants_db.py - queries return fresh copies

The stored table is a list of Python dict objects; `get`, `search` and
`best_predictions` all return `dict(c)` copies of them.  To make the copy
observable, records live in an explicit heap (a list of records indexed by
address): the database state is the heap plus the addresses of the stored
table, `dict(c)` is an allocation of a fresh address, and a caller mutation
of a returned record is an in-place update of its address.  The claim's
observable is `view`, the stored table's record values. -/

/-- One constant entry (the dict built by `_entry` in `constants_db.py`). -/
structure ConstRecord where
  name : String
  value : ℚ
  experimental : ℚ
  unit : String
  sector : String
  formula : String
  deviation_ppm : ℚ
deriving DecidableEq, Inhabited

/-- Heap of record objects plus the addresses of `self._constants`. -/
structure CState where
  heap : List ConstRecord
  table : List ℕ
deriving DecidableEq

/-- Well-formed state: every stored address points into the heap. -/
abbrev WF (s : CState) : Prop := ∀ a ∈ s.table, a < s.heap.length

/-- Record value stored at address `a`. -/
def readAddr (s : CState) (a : ℕ) : ConstRecord := (s.heap[a]?).getD default

/-- Values of the stored table — what the queries read and what the claim
says must never change. -/
def view (s : CState) : List ConstRecord := s.table.map (readAddr s)

/-- Allocation of a fresh record object (`dict(c)`): returns its address. -/
def alloc (r : ConstRecord) (s : CState) : ℕ × CState :=
  (s.heap.length, ⟨s.heap ++ [r], s.table⟩)

/-- Allocation of one fresh object per record, in order. -/
def allocList : List ConstRecord → CState → List ℕ × CState
  | [], s => ([], s)
  | r :: rs, s =>
    let p := alloc r s
    let q := allocList rs p.2
    (p.1 :: q.1, q.2)

/-- Caller mutation of the object at address `a` (heap cells only; the
stored address table itself is not reachable from a returned record). -/
def mutate (a : ℕ) (r : ConstRecord) (s : CState) : CState :=
  ⟨s.heap.set a r, s.table⟩

namespace ConstantsDB

/-- Embedding of `ConstantsDB.get`: first stored record with the given
name, returned as a fresh `dict(c)` copy (`none` when absent). -/
def get (nm : String) (s : CState) : Option ℕ × CState :=
  match (view s).find? (fun c => c.name == nm) with
  | some c =>
    let p := alloc c s
    (some p.1, p.2)
  | none => (none, s)

/-- Filter pipeline of `ConstantsDB.search`; a `sector`/`query` of `none`
or `""` is falsy in Python and skips its filter. -/
def searchFilter (sector query : Option String) (cs : List ConstRecord) :
    List ConstRecord :=
  let r1 := match sector with
    | some sec => if sec = "" then cs else cs.filter (fun c => c.sector == sec)
    | none => cs
  match query with
  | some q =>
    if q = "" then r1
    else r1.filter (fun c => decide (q.toLower.toList <:+: c.name.toLower.toList))
  | none => r1

/-- Embedding of `ConstantsDB.search`: the filtered subset in construction
order, each entry a fresh `dict(c)` copy. -/
def search (sector query : Option String) (s : CState) : List ℕ × CState :=
  allocList (searchFilter sector query (view s)) s

/-- Result values of `ConstantsDB.best_predictions` before copying: entries
with nonzero deviation, stably sorted ascending by deviation, first `n`. -/
def bestFilter (n : ℕ) (cs : List ConstRecord) : List ConstRecord :=
  (List.insertionSort (fun a b => a.deviation_ppm ≤ b.deviation_ppm)
    (cs.filter (fun c => 0 < c.deviation_ppm))).take n

/-- Embedding of `ConstantsDB.best_predictions` (the in-place `sort` acts
on the fresh `non_exact` list, not on the stored table). -/
def best_predictions (n : ℕ) (s : CState) : List ℕ × CState :=
  allocList (bestFilter n (view s)) s

/-- Record values the caller observes from `get`. -/
def getValue (nm : String) (s : CState) : Option ConstRecord :=
  ((get nm s).1).map (readAddr (get nm s).2)

/-- Record values the caller observes from `search`. -/
def searchValues (sector query : Option String) (s : CState) :
    List ConstRecord :=
  ((search sector query s).1).map (readAddr (search sector query s).2)

/-- Record values the caller observes from `best_predictions`. -/
def bestValues (n : ℕ) (s : CState) : List ConstRecord :=
  ((best_predictions n s).1).map (readAddr (best_predictions n s).2)

end ConstantsDB

lemma readAddr_append_lt {s : CState} {r : ConstRecord} {a : ℕ}
    (h : a < s.heap.length) :
    readAddr ⟨s.heap ++ [r], s.table⟩ a = readAddr s a := by
  unfold readAddr
  rw [List.getElem?_append_left h]

lemma WF_alloc (r : ConstRecord) {s : CState} (h : WF s) :
    WF (alloc r s).2 := by
  intro a ha
  have := h a ha
  simp only [alloc, List.length_append]
  omega

lemma view_alloc (r : ConstRecord) {s : CState} (h : WF s) :
    view (alloc r s).2 = view s :=
  List.map_congr_left (fun a ha => readAddr_append_lt (h a ha))

lemma readAddr_alloc_self (r : ConstRecord) (s : CState) :
    readAddr (alloc r s).2 (alloc r s).1 = r := by
  unfold readAddr alloc
  simp [List.getElem?_concat_length]

lemma length_alloc (r : ConstRecord) (s : CState) :
    (alloc r s).2.heap.length = s.heap.length + 1 := by
  simp [alloc]

lemma allocList_spec : ∀ (rs : List ConstRecord) (s : CState), WF s →
    (allocList rs s).2.table = s.table ∧
    WF (allocList rs s).2 ∧
    s.heap.length ≤ (allocList rs s).2.heap.length ∧
    (∀ a, a < s.heap.length →
      readAddr (allocList rs s).2 a = readAddr s a) ∧
    (∀ a ∈ (allocList rs s).1, s.heap.length ≤ a) ∧
    (allocList rs s).1.map (readAddr (allocList rs s).2) = rs
  | [], s, h =>
    ⟨rfl, h, le_refl _, fun _ _ => rfl, by simp [allocList], rfl⟩
  | r :: rs, s, h => by
    obtain ⟨ht, hwf, hlen, hpres, haddr, hread⟩ :=
      allocList_spec rs (alloc r s).2 (WF_alloc r h)
    have hstep : s.heap.length < (alloc r s).2.heap.length := by
      rw [length_alloc]
      omega
    refine ⟨ht, hwf, le_trans (le_of_lt hstep) hlen, ?_, ?_, ?_⟩
    · intro a ha
      exact (hpres a (lt_trans ha hstep)).trans (readAddr_append_lt ha)
    · intro a ha
      rcases List.mem_cons.mp ha with rfl | ha'
      · exact le_refl _
      · exact le_trans (le_of_lt hstep) (haddr a ha')
    · show List.map (readAddr (allocList rs (alloc r s).2).2)
          ((alloc r s).1 :: (allocList rs (alloc r s).2).1) = r :: rs
      rw [List.map_cons, hread, hpres (alloc r s).1 hstep,
        readAddr_alloc_self]

lemma WF_mutate (a : ℕ) (r : ConstRecord) {s : CState} (h : WF s) :
    WF (mutate a r s) := by
  intro b hb
  have := h b hb
  simpa [mutate, List.length_set] using this

lemma view_mutate {s : CState} {a : ℕ} (r : ConstRecord)
    (h : ∀ b ∈ s.table, b ≠ a) :
    view (mutate a r s) = view s := by
  refine List.map_congr_left (fun b hb => ?_)
  unfold readAddr mutate
  rw [List.getElem?_set_ne (h b hb).symm]

lemma get_spec (nm : String) {s : CState} (h : WF s) :
    (ConstantsDB.get nm s).2.table = s.table ∧
    WF (ConstantsDB.get nm s).2 ∧
    view (ConstantsDB.get nm s).2 = view s ∧
    (∀ a, (ConstantsDB.get nm s).1 = some a → s.heap.length ≤ a) ∧
    ConstantsDB.getValue nm s = (view s).find? (fun c => c.name == nm) := by
  unfold ConstantsDB.getValue ConstantsDB.get
  cases hf : (view s).find? (fun c => c.name == nm) with
  | none =>
    exact ⟨rfl, h, rfl, fun a ha => Option.noConfusion ha, rfl⟩
  | some c =>
    refine ⟨rfl, WF_alloc c h, view_alloc c h, ?_, ?_⟩
    · intro a ha
      have ha' : (alloc c s).1 = a := Option.some.inj ha
      subst ha'
      exact le_refl _
    · show Option.map (readAddr (alloc c s).2) (some (alloc c s).1) = some c
      rw [Option.map_some', readAddr_alloc_self]

lemma allocQuery_spec (f : List ConstRecord → List ConstRecord)
    {s : CState} (h : WF s) :
    (allocList (f (view s)) s).2.table = s.table ∧
    WF (allocList (f (view s)) s).2 ∧
    view (allocList (f (view s)) s).2 = view s ∧
    (∀ a ∈ (allocList (f (view s)) s).1, s.heap.length ≤ a) ∧
    (allocList (f (view s)) s).1.map
      (readAddr (allocList (f (view s)) s).2) = f (view s) := by
  obtain ⟨ht, hwf, _, hpres, haddr, hread⟩ := allocList_spec (f (view s)) s h
  refine ⟨ht, hwf, ?_, haddr, hread⟩
  show (allocList (f (view s)) s).2.table.map _ = _
  rw [ht]
  exact List.map_congr_left (fun a ha => hpres a (h a ha))

lemma searchValues_eq (sector query : Option String) {s : CState}
    (h : WF s) :
    ConstantsDB.searchValues sector query s
      = ConstantsDB.searchFilter sector query (view s) :=
  (allocQuery_spec (ConstantsDB.searchFilter sector query) h).2.2.2.2

lemma bestValues_eq (n : ℕ) {s : CState} (h : WF s) :
    ConstantsDB.bestValues n s = ConstantsDB.bestFilter n (view s) :=
  (allocQuery_spec (ConstantsDB.bestFilter n) h).2.2.2.2

/-- C10: on any well-formed database state, `get`, `search` and
`best_predictions` leave the stored table's record values (`view`)
unchanged, and every returned address is a fresh copy: mutating it and
re-running the same query yields the same observed result values as before
the mutation. -/
theorem constants_db_fresh_copies_spec (s : CState) (h : WF s)
    (nm : String) (sector query : Option String) (n : ℕ) (r : ConstRecord) :
    view (ConstantsDB.get nm s).2 = view s ∧
    view (ConstantsDB.search sector query s).2 = view s ∧
    view (ConstantsDB.best_predictions n s).2 = view s ∧
    (∀ a, (ConstantsDB.get nm s).1 = some a →
      ConstantsDB.getValue nm (mutate a r (ConstantsDB.get nm s).2)
        = ConstantsDB.getValue nm s) ∧
    (∀ a ∈ (ConstantsDB.search sector query s).1,
      ConstantsDB.searchValues sector query
          (mutate a r (ConstantsDB.search sector query s).2)
        = ConstantsDB.searchValues sector query s) ∧
    (∀ a ∈ (ConstantsDB.best_predictions n s).1,
      ConstantsDB.bestValues n
          (mutate a r (ConstantsDB.best_predictions n s).2)
        = ConstantsDB.bestValues n s) := by
  obtain ⟨gt, gwf, gview, gfresh, gval⟩ := get_spec nm h
  obtain ⟨st, swf, sview, sfresh, _⟩ :=
    allocQuery_spec (ConstantsDB.searchFilter sector query) h
  obtain ⟨bt, bwf, bview, bfresh, _⟩ :=
    allocQuery_spec (ConstantsDB.bestFilter n) h
  refine ⟨gview, sview, bview, ?_, ?_, ?_⟩
  · intro a ha
    have hne : ∀ b ∈ (ConstantsDB.get nm s).2.table, b ≠ a := by
      intro b hb
      rw [gt] at hb
      have h1 := h b hb
      have h2 := gfresh a ha
      omega
    have hWF' : WF (mutate a r (ConstantsDB.get nm s).2) := WF_mutate a r gwf
    have hview : view (mutate a r (ConstantsDB.get nm s).2) = view s :=
      (view_mutate r hne).trans gview
    rw [(get_spec nm hWF').2.2.2.2, gval, hview]
  · intro a ha
    have hne : ∀ b ∈ (ConstantsDB.search sector query s).2.table, b ≠ a := by
      intro b hb
      rw [show (ConstantsDB.search sector query s).2.table = s.table from st]
        at hb
      have h1 := h b hb
      have h2 := sfresh a ha
      omega
    have hWF' : WF (mutate a r (ConstantsDB.search sector query s).2) :=
      WF_mutate a r swf
    have hview :
        view (mutate a r (ConstantsDB.search sector query s).2) = view s :=
      (view_mutate r hne).trans sview
    rw [searchValues_eq sector query hWF', searchValues_eq sector query h,
      hview]
  · intro a ha
    have hne : ∀ b ∈ (ConstantsDB.best_predictions n s).2.table, b ≠ a := by
      intro b hb
      rw [show (ConstantsDB.best_predictions n s).2.table = s.table from bt]
        at hb
      have h1 := h b hb
      have h2 := bfresh a ha
      omega
    have hWF' : WF (mutate a r (ConstantsDB.best_predictions n s).2) :=
      WF_mutate a r bwf
    have hview :
        view (mutate a r (ConstantsDB.best_predictions n s).2) = view s :=
      (view_mutate r hne).trans bview
    rw [bestValues_eq n hWF', bestValues_eq n h, hview]

/-- Tiny concrete database entry (values abbreviated from the `PHI` row). -/
def dbRec1 : ConstRecord :=
  ⟨"PHI", 1618/1000, 1618/1000, "", "core", "(1+sqrt(5))/2", 0⟩

/-- Tiny concrete database entry with nonzero deviation (`M_W` row). -/
def dbRec2 : ConstRecord :=
  ⟨"M_W", 80379/1000, 803692/10000, "GeV", "electroweak", "Brahim tree",
    121⟩

/-- Two-entry concrete database state. -/
def dbState : CState := ⟨[dbRec1, dbRec2], [0, 1]⟩

/-- Record a hostile caller writes into a returned copy. -/
def dbMut : ConstRecord := ⟨"clobbered", 0, 0, "", "", "", 0⟩

/-- Closed instance of `constants_db_fresh_copies_spec` on the two-entry
state, querying `get "PHI"`, `search(sector="core")` and
`best_predictions(10)`, with an arbitrary caller overwrite. -/
theorem constants_db_fresh_copies_spec_witness :
    WF dbState ∧
    (view (ConstantsDB.get "PHI" dbState).2 = view dbState ∧
    view (ConstantsDB.search (some "core") none dbState).2 = view dbState ∧
    view (ConstantsDB.best_predictions 10 dbState).2 = view dbState ∧
    (∀ a, (ConstantsDB.get "PHI" dbState).1 = some a →
      ConstantsDB.getValue "PHI"
          (mutate a dbMut (ConstantsDB.get "PHI" dbState).2)
        = ConstantsDB.getValue "PHI" dbState) ∧
    (∀ a ∈ (ConstantsDB.search (some "core") none dbState).1,
      ConstantsDB.searchValues (some "core") none
          (mutate a dbMut (ConstantsDB.search (some "core") none dbState).2)
        = ConstantsDB.searchValues (some "core") none dbState) ∧
    (∀ a ∈ (ConstantsDB.best_predictions 10 dbState).1,
      ConstantsDB.bestValues 10
          (mutate a dbMut (ConstantsDB.best_predictions 10 dbState).2)
        = ConstantsDB.bestValues 10 dbState)) :=
  ⟨by decide,
    constants_db_fresh_copies_spec dbState (by decide) "PHI" (some "core")
      none 10 dbMut⟩
